import Mathlib

/-!
Verification of `check-certs.go`: a shallow embedding of the certificate
expiry checker. The program reads hostnames, fans them out over a pool of
worker goroutines that TLS-dial each host and scan the peer certificate
chain for expiry before a threshold, and aggregates per-host outcomes into
an exit status.

Network, file-system and clock effects are abstracted as explicit inputs
(a `dial` oracle, the list of lines a scanner yields, a `now` date); all
control flow and data manipulation is translated directly from the Go
source.
-/

/-- Exit code for usage errors, `const ExUsage = 64` (from man sysexits). -/
def ExUsage : Nat := 64

/-- The Go `result` struct: `{ Hostname string; Err error }`. A Go `error`
value is modelled as `Option String` (`nil` = `none`). -/
structure GoResult where
  Hostname : String
  Err : Option String
  deriving Repr, DecidableEq

/-- A peer certificate as consumed by the expiry loop: its `NotAfter`
instant (modelled as an integer timestamp on an abstract time axis) and
its `Subject.CommonName`. -/
structure GoCert where
  NotAfter : Int
  SubjectCommonName : String
  deriving Repr, DecidableEq

/-- Go `time.Time.After`: `t.After(u)` holds iff `t` is strictly later
than `u`. -/
def timeAfter (t u : Int) : Bool :=
  decide (u < t)

/-- The message built by `errors.Errorf("cert[%d] %s expires at %v", i,
cert.Subject.CommonName, cert.NotAfter)` on line 84. -/
def expiringErrorMsg (i : Nat) (cn : String) (na : Int) : String :=
  "cert[" ++ toString i ++ "] " ++ cn ++ " expires at " ++ toString na

/-- The certificate loop of `checkCertificate` (lines 82-86): walk the
peer chain with its index; at the first certificate with
`certExpiry.After(cert.NotAfter)` return the data of the `ExpiringError`
(index, common name, `NotAfter`); return `none` when no certificate is
flagged. -/
def expiryScan (certExpiry : Int) (i : Nat) : List GoCert → Option (Nat × String × Int)
  | [] => none
  | c :: cs =>
    if timeAfter certExpiry c.NotAfter then some (i, c.SubjectCommonName, c.NotAfter)
    else expiryScan certExpiry (i + 1) cs

/-- `strings.Contains(host, ":")` for the one-character pattern `":"`:
some character of the string is a colon. -/
def goContainsColon (s : String) : Bool :=
  s.data.any (fun c => c == ':')

/-- Lines 69-72 of `checkCertificate`: the address handed to `tls.Dial` —
the hostname itself when it contains a `:`, otherwise the hostname with
`":443"` appended. -/
def connectHost (host : String) : String :=
  if goContainsColon host then host else host ++ ":443"

/-- `checkCertificate` (lines 64-89). The TLS dial is an oracle
`dial : address → Except error chain` standing for the network; the
threshold `certExpiry` (computed from the clock on line 80) is a
parameter. Returns the `(result, error)` pair exactly as the Go function
does: the `result` always carries `Hostname = host` with `Err = nil`, and
the second component is the `tls dial` wrap of a dial error, the
`ExpiringError` message, or `none`. -/
def checkCertificate (dial : String → Except String (List GoCert)) (certExpiry : Int)
    (host : String) : GoResult × Option String :=
  let r : GoResult := ⟨host, none⟩
  match dial (connectHost host) with
  | Except.error e => (r, some ("tls dial: " ++ e))
  | Except.ok certs =>
    match expiryScan certExpiry 0 certs with
    | some (idx, cn, na) => (r, some (expiringErrorMsg idx cn na))
    | none => (r, none)

/-- One iteration of `worker` (lines 55-61): run `checkCertificate` on the
host pulled from the queue and, when the returned error is non-nil, store
it into the result's `Err` field; the result is then sent on `results`.
Errors are ordinary values here, as in Go: nothing escapes as a panic. -/
def workerStep (dial : String → Except String (List GoCert)) (certExpiry : Int)
    (host : String) : GoResult :=
  let p := checkCertificate dial certExpiry host
  match p.2 with
  | some e => { p.1 with Err := some e }
  | none => p.1

/-- The body of the result-consuming loop of `main` (lines 124-130): the
loop receives one result per input host, in arrival order; an error-free
result is skipped, an erroneous one appends a failure report (hostname,
error detail) and sets `anyErrors`, which is never reset. -/
def consumeStep (acc : List (String × String) × Bool) (r : GoResult) :
    List (String × String) × Bool :=
  match r.Err with
  | some e => (acc.1 ++ [(r.Hostname, e)], true)
  | none => acc

/-- The whole consuming loop: fold `consumeStep` over the received
results, starting from no reports and `anyErrors = false`. -/
def consumeResults (rs : List GoResult) : List (String × String) × Bool :=
  rs.foldl consumeStep ([], false)

/-- Lines 132-134 of `main`: exit status 1 when `anyErrors`, otherwise the
process falls off `main` and exits 0. -/
def exitAfterConsume (rs : List GoResult) : Nat :=
  if (consumeResults rs).2 then 1 else 0

/-- Lines 99-102 of `main`: a hosts-file error (e.g. the file does not
exist) is reported and the process exits with `ExUsage`, before any
channel is created or worker started. -/
def usageErrorExit : Nat := ExUsage

/-- Go `unicode.IsSpace`, the predicate `strings.TrimSpace` trims with:
in Latin-1 the characters `'\t', '\n', '\v', '\f', '\r', ' ', U+0085,
U+00A0`, and beyond Latin-1 the runes of the Unicode `White_Space` range
table (U+1680, U+2000-U+200A, U+2028, U+2029, U+202F, U+205F, U+3000). -/
def isGoSpace (c : Char) : Bool :=
  c.val = 9 || c.val = 10 || c.val = 11 || c.val = 12 || c.val = 13 ||
    c.val = 32 || c.val = 0x85 || c.val = 0xA0 || c.val = 0x1680 ||
    (0x2000 ≤ c.val && c.val ≤ 0x200A) || c.val = 0x2028 || c.val = 0x2029 ||
    c.val = 0x202F || c.val = 0x205F || c.val = 0x3000

/-- `strings.TrimSpace`: remove leading and trailing whitespace. -/
def goTrimSpace (s : String) : String :=
  ⟨((s.data.dropWhile isGoSpace).reverse.dropWhile isGoSpace).reverse⟩

/-- The scanning loop of `readHostsFile` (lines 43-49): `bufio.Scanner`
with its default split yields the file's lines in order; each line is
appended to `hosts` after `strings.TrimSpace` — no line is skipped. The
file-system access (lines 34-41) and scanner I/O errors are outside the
model: `lines` is the sequence of lines the scanner yields. -/
def readHostsFile (lines : List String) : List String :=
  lines.map goTrimSpace

/-- The date component of a Go `time.Time` (proleptic Gregorian calendar,
as used by the `time` package). -/
structure GoDate where
  year : Int
  month : Int
  day : Int
  deriving Repr, DecidableEq

/-- Day number of a civil date (days since 1970-01-01, negative before).
Modelled from the Go `time` package: `time.Date` turns a year/month/day
triple into an absolute day count over the proleptic Gregorian calendar
(365-day years with the 4/100/400 leap rules); this is the standard
days-from-civil computation, which agrees with Go's `absDate`/`Date` pair
on every Gregorian date. -/
def daysFromCivil (d : GoDate) : Int :=
  let y := d.year - (if d.month ≤ 2 then 1 else 0)
  let era := Int.fdiv y 400
  let yoe := y - era * 400
  let mp := d.month + (if d.month > 2 then -3 else 9)
  let doy := Int.fdiv (153 * mp + 2) 5 + d.day - 1
  let doe := yoe * 365 + Int.fdiv yoe 4 - Int.fdiv yoe 100 + doy
  era * 146097 + doe - 719468

/-- Civil date of a day number: the inverse decomposition performed by
Go's `absDate` (cutting 400-year eras, then leap cycles, then months). -/
def civilFromDays (z0 : Int) : GoDate :=
  let z := z0 + 719468
  let era := Int.fdiv z 146097
  let doe := z - era * 146097
  let yoe := Int.fdiv (doe - Int.fdiv doe 1460 + Int.fdiv doe 36524 - Int.fdiv doe 146096) 365
  let y := yoe + era * 400
  let doy := doe - (365 * yoe + Int.fdiv yoe 4 - Int.fdiv yoe 100)
  let mp := Int.fdiv (5 * doy + 2) 153
  let d := doy - Int.fdiv (153 * mp + 2) 5 + 1
  let m := mp + (if mp < 10 then 3 else -9)
  ⟨y + (if m ≤ 2 then 1 else 0), m, d⟩

/-- Go `t.AddDate(0, 0, days)` on the date component: `time.Date(year,
month, day+days, ...)` renormalizes the out-of-range day-of-month through
the absolute day count, i.e. calendar day addition. -/
def goAddDate (d : GoDate) (days : Int) : GoDate :=
  civilFromDays (daysFromCivil d + days)

/-- Line 80 of `checkCertificate`:
`certExpiry := time.Now().AddDate(0, 0, *days)` — the expiry threshold is
`now` plus the configured number of days, by calendar day addition. -/
def certExpiryDate (now : GoDate) (days : Int) : GoDate :=
  goAddDate now days

/-- State of the fan-out/fan-in machinery of `main` (lines 106-130): the
producer goroutine's remaining hosts (`pending`, not yet handed over on
the unbuffered `queue`), whether `queue` has been closed, the multiset of
hosts currently held by workers (`busy`), the multiset of outcome
hostnames the main goroutine has received from `results` (`done` — by
`workerStep`, each outcome carries the hostname of the host it was
produced from), and the number of workers ready to receive from `queue`
(`idle`). -/
structure DispatchState where
  pending : List String
  closed : Bool
  busy : Multiset String
  done : Multiset String
  idle : Nat
  deriving DecidableEq

/-- One scheduler step of the dispatcher. `take`: the producer's send on
the unbuffered `queue` rendezvouses with an idle worker's receive.
`close`: the producer closes `queue` after sending every host. `finish`:
a worker finishes a check and its send on `results` rendezvouses with the
main goroutine's receive, after which the worker returns to the queue.
`exit`: a worker's receive on the closed, drained `queue` returns and the
worker terminates. -/
inductive DispatchStep : DispatchState → DispatchState → Prop
  | take (h : String) (rest : List String) (closed : Bool)
      (busy done : Multiset String) (idle : Nat) :
      DispatchStep ⟨h :: rest, closed, busy, done, idle + 1⟩
        ⟨rest, closed, h ::ₘ busy, done, idle⟩
  | close (busy done : Multiset String) (idle : Nat) :
      DispatchStep ⟨[], false, busy, done, idle⟩ ⟨[], true, busy, done, idle⟩
  | finish (pending : List String) (closed : Bool) (h : String)
      (busy done : Multiset String) (idle : Nat) (hmem : h ∈ busy) :
      DispatchStep ⟨pending, closed, busy, done, idle⟩
        ⟨pending, closed, busy.erase h, h ::ₘ done, idle + 1⟩
  | exit (pending : List String) (busy done : Multiset String) (idle : Nat) :
      DispatchStep ⟨pending, true, busy, done, idle + 1⟩
        ⟨pending, true, busy, done, idle⟩

/-- The state of `main` right after lines 106-120: no host handed out yet,
queue open, `concurrency` workers blocked on the empty queue. -/
def initDispatch (hosts : List String) (concurrency : Nat) : DispatchState :=
  ⟨hosts, false, 0, 0, concurrency⟩

/-- The states the dispatcher can reach from its initial state under any
interleaving. -/
def DispatchReach (hosts : List String) (concurrency : Nat) (s : DispatchState) : Prop :=
  Relation.ReflTransGen DispatchStep (initDispatch hosts concurrency) s

/-- Conservation invariant of the dispatcher: at every reachable state the
hosts still with the producer, the hosts held by workers and the outcome
hostnames received by main together form exactly the input multiset. -/
theorem dispatch_invariant (hosts : List String) (concurrency : Nat) (s : DispatchState)
    (h : DispatchReach hosts concurrency s) :
    (↑s.pending : Multiset String) + s.busy + s.done = (↑hosts : Multiset String) := by
  have h' : Relation.ReflTransGen DispatchStep (initDispatch hosts concurrency) s := h
  clear h
  induction h' with
  | refl => simp [initDispatch]
  | tail hab hstep ih =>
    cases hstep with
    | take hh rest cl bsy dn idl =>
      simp only [← Multiset.cons_coe, Multiset.cons_add, Multiset.add_cons] at ih ⊢
      exact ih
    | close bsy dn idl => simpa using ih
    | finish pend cl hh bsy dn idl hmem =>
      rw [← Multiset.cons_erase hmem] at ih
      simp only [Multiset.cons_add, Multiset.add_cons] at ih ⊢
      exact ih
    | exit pend bsy dn idl => simpa using ih

/-- With at least one worker there is a schedule that hands every host to
a worker and returns every outcome to main: each host is taken and
finished in turn, then the producer closes the queue. -/
theorem dispatch_run (concurrency : Nat) (hC : 0 < concurrency) :
    ∀ (pending : List String) (done : Multiset String),
      Relation.ReflTransGen DispatchStep ⟨pending, false, 0, done, concurrency⟩
        ⟨[], true, 0, done + ↑pending, concurrency⟩ := by
  intro pending
  induction pending with
  | nil =>
    intro done
    have hstep : DispatchStep ⟨[], false, 0, done, concurrency⟩
        ⟨[], true, 0, done, concurrency⟩ := DispatchStep.close 0 done concurrency
    simpa using Relation.ReflTransGen.single hstep
  | cons hh rest ih =>
    intro done
    have h1 : DispatchStep ⟨hh :: rest, false, 0, done, concurrency⟩
        ⟨rest, false, hh ::ₘ 0, done, concurrency - 1⟩ := by
      have ht := DispatchStep.take hh rest false 0 done (concurrency - 1)
      rwa [Nat.sub_add_cancel hC] at ht
    have h2 : DispatchStep ⟨rest, false, hh ::ₘ 0, done, concurrency - 1⟩
        ⟨rest, false, 0, hh ::ₘ done, concurrency⟩ := by
      have hf := DispatchStep.finish rest false hh (hh ::ₘ 0) done (concurrency - 1)
        (by simp)
      simpa [Multiset.erase_cons_head, Nat.sub_add_cancel hC] using hf
    have h3 := ih (hh ::ₘ done)
    have heq : (hh ::ₘ done) + (↑rest : Multiset String) = done + ↑(hh :: rest) := by
      simp only [← Multiset.cons_coe, Multiset.cons_add, Multiset.add_cons]
    rw [heq] at h3
    exact Relation.ReflTransGen.head h1 (Relation.ReflTransGen.head h2 h3)

/-- C1: for a nonempty host list and concurrency at least 1, some
interleaving delivers to main exactly `N = len(hosts)` outcomes whose
hostname multiset is the input multiset; and under every interleaving the
received outcome hostnames always form a sub-multiset of the input (each
drawn from the input, none duplicated), with equality exactly when the
`len(hosts)`-th outcome has been received — so no hostname is lost and
none duplicated. -/
theorem dispatcher_produces_each_host_exactly_once (hosts : List String)
    (concurrency : Nat) (_hN : 1 ≤ hosts.length) (hC : 1 ≤ concurrency) :
    (∃ s, DispatchReach hosts concurrency s ∧ s.done = (↑hosts : Multiset String) ∧
      Multiset.card s.done = hosts.length) ∧
    (∀ s, DispatchReach hosts concurrency s →
      s.done ≤ (↑hosts : Multiset String) ∧
      (Multiset.card s.done = hosts.length → s.done = (↑hosts : Multiset String))) := by
  constructor
  · refine ⟨⟨[], true, 0, ↑hosts, concurrency⟩, ?_, rfl, by simp⟩
    have hr := dispatch_run concurrency hC hosts 0
    simpa [DispatchReach, initDispatch] using hr
  · intro s hs
    have hinv := dispatch_invariant hosts concurrency s hs
    constructor
    · calc s.done ≤ ↑s.pending + s.busy + s.done := le_add_self
        _ = ↑hosts := hinv
    · intro hcard
      have hc2 : Multiset.card (↑s.pending : Multiset String) + Multiset.card s.busy +
          Multiset.card s.done = hosts.length := by
        have hcg := congrArg Multiset.card hinv
        simpa [Multiset.card_add, Multiset.coe_card] using hcg
      have hp : s.pending = [] := by
        have hz : Multiset.card (↑s.pending : Multiset String) = 0 := by
          simp only [Multiset.coe_card] at hc2 ⊢
          omega
        simpa [Multiset.coe_card, List.length_eq_zero] using hz
      have hb : s.busy = 0 := by
        have hz : Multiset.card s.busy = 0 := by
          simp only [Multiset.coe_card] at hc2
          omega
        simpa [Multiset.card_eq_zero] using hz
      rw [hp, hb] at hinv
      simpa using hinv

/-- Witness for C1 on three hosts (one repeated) and two workers. -/
theorem dispatcher_produces_each_host_exactly_once_witness :
    (1 ≤ (["a", "b", "a"] : List String).length ∧ 1 ≤ 2) ∧
    ((∃ s, DispatchReach ["a", "b", "a"] 2 s ∧
        s.done = (↑(["a", "b", "a"] : List String) : Multiset String) ∧
        Multiset.card s.done = (["a", "b", "a"] : List String).length) ∧
      (∀ s, DispatchReach ["a", "b", "a"] 2 s →
        s.done ≤ (↑(["a", "b", "a"] : List String) : Multiset String) ∧
        (Multiset.card s.done = (["a", "b", "a"] : List String).length →
          s.done = (↑(["a", "b", "a"] : List String) : Multiset String)))) :=
  ⟨⟨by decide, by decide⟩,
    dispatcher_produces_each_host_exactly_once ["a", "b", "a"] 2 (by decide) (by decide)⟩

/-- C2 (the code lacks the claimed behavior): `main` never validates the
concurrency flag. With concurrency 0 and a nonempty host list, zero
workers are started and the initial state has no successor: the
producer's send on the unbuffered queue and main's receive on `results`
block forever. No hostname is dialled and no outcome produced — but no
`ConfigError` is raised either and the process never exits with the
configuration-error status: it deadlocks. -/
theorem concurrency_zero_deadlocks_without_config_error (s : DispatchState)
    (h : DispatchReach ["example.com"] 0 s) :
    s = initDispatch ["example.com"] 0 ∧ s.done = 0 := by
  have h' : Relation.ReflTransGen DispatchStep (initDispatch ["example.com"] 0) s := h
  clear h
  induction h' with
  | refl => exact ⟨rfl, rfl⟩
  | tail hab hstep ih =>
    obtain ⟨ih1, -⟩ := ih
    subst ih1
    simp only [initDispatch] at hstep
    cases hstep with
    | finish pend cl hh bsy dn idl hmem => exact absurd hmem (Multiset.not_mem_zero hh)

/-- Witness for C2: the initial state itself is reachable and has no
outcome. -/
theorem concurrency_zero_deadlocks_without_config_error_witness :
    initDispatch ["example.com"] 0 = initDispatch ["example.com"] 0 ∧
    (initDispatch ["example.com"] 0).done = 0 :=
  concurrency_zero_deadlocks_without_config_error (initDispatch ["example.com"] 0)
    Relation.ReflTransGen.refl

/-- C5: the Connector dials `host ++ ":443"` when the hostname contains no
colon character, and dials the hostname unchanged when it contains one. -/
theorem connectHost_appends_443_iff_no_colon (host : String) :
    connectHost host = if ':' ∈ host.data then host else host ++ ":443" := by
  simp [connectHost, goContainsColon, List.any_eq_true]

/-- C6: the `Hostname` field of the outcome is always the original input
hostname — both in the `result` built by `checkCertificate` and in the
result the worker sends — whatever the dial oracle returns for the
(possibly `":443"`-normalized) dial address and whatever the threshold
is. -/
theorem outcome_hostname_is_input (dial : String → Except String (List GoCert))
    (certExpiry : Int) (host : String) :
    (workerStep dial certExpiry host).Hostname = host ∧
    (checkCertificate dial certExpiry host).1.Hostname = host := by
  cases hd : dial (connectHost host) with
  | error e => simp [workerStep, checkCertificate, hd]
  | ok certs =>
    cases hs : expiryScan certExpiry 0 certs with
    | none => simp [workerStep, checkCertificate, hd, hs]
    | some p =>
      obtain ⟨i, cn, na⟩ := p
      simp [workerStep, checkCertificate, hd, hs]

/-- C7: the expiry threshold of line 80 is computed by calendar day
addition with month and year rollover: 30 days after January 15 is
February 14 (leap or not), one day after December 31 is January 1 of the
next year, and the leap rules decide where a day after February 28
lands. -/
theorem certExpiryDate_calendar_rollover :
    certExpiryDate ⟨2023, 1, 15⟩ 30 = ⟨2023, 2, 14⟩ ∧
    certExpiryDate ⟨2024, 1, 15⟩ 30 = ⟨2024, 2, 14⟩ ∧
    certExpiryDate ⟨2023, 12, 31⟩ 1 = ⟨2024, 1, 1⟩ ∧
    certExpiryDate ⟨2023, 12, 20⟩ 20 = ⟨2024, 1, 9⟩ ∧
    certExpiryDate ⟨2024, 2, 28⟩ 1 = ⟨2024, 2, 29⟩ ∧
    certExpiryDate ⟨2023, 2, 28⟩ 1 = ⟨2023, 3, 1⟩ ∧
    certExpiryDate ⟨2024, 2, 28⟩ 2 = ⟨2024, 3, 1⟩ := by
  decide

/-- C8: when the dial of a host fails, the worker's outcome for that host
is exactly the input hostname with the wrapped dial error in `Err` — the
certificate chain is never evaluated (the outcome does not depend on the
expiry threshold), and the error is an ordinary value captured in the
outcome, not a panic. -/
theorem dial_error_captured_no_chain_evaluation
    (dial : String → Except String (List GoCert)) (t1 t2 : Int) (host e : String)
    (hd : dial (connectHost host) = Except.error e) :
    workerStep dial t1 host = ⟨host, some ("tls dial: " ++ e)⟩ ∧
    workerStep dial t1 host = workerStep dial t2 host := by
  constructor
  · simp [workerStep, checkCertificate, hd]
  · simp [workerStep, checkCertificate, hd]

/-- Folding the consuming loop from any accumulator: the reports are the
accumulated ones followed by one report per erroneous result, and the
flag is the old flag or-ed with "some result is erroneous". -/
theorem foldl_consumeStep (rs : List GoResult) (fs : List (String × String)) (b : Bool) :
    rs.foldl consumeStep (fs, b) =
      (fs ++ rs.filterMap (fun r => r.Err.map (fun e => (r.Hostname, e))),
        b || rs.any (fun r => r.Err.isSome)) := by
  induction rs generalizing fs b with
  | nil => simp
  | cons r rs ih =>
    cases he : r.Err with
    | none => simp [consumeStep, he, ih]
    | some e => simp [consumeStep, he, ih]

/-- Closed form of the consuming loop. -/
theorem consumeResults_spec (rs : List GoResult) :
    consumeResults rs =
      (rs.filterMap (fun r => r.Err.map (fun e => (r.Hostname, e))),
        rs.any (fun r => r.Err.isSome)) := by
  simpa using foldl_consumeStep rs [] false

/-- `expiryScan` returns `none` exactly when no certificate of the chain
has `NotAfter` strictly before the threshold, whatever the running
index. -/
theorem expiryScan_none_iff (t : Int) (chain : List GoCert) :
    ∀ i, expiryScan t i chain = none ↔ ∀ c ∈ chain, ¬ (c.NotAfter < t) := by
  induction chain with
  | nil => intro i; simp [expiryScan]
  | cons c cs ih =>
    intro i
    by_cases hc : c.NotAfter < t
    · simp [expiryScan, timeAfter, hc]
    · simp [expiryScan, timeAfter, hc, ih (i + 1)]
      intro _
      omega

/-- When `expiryScan` flags a certificate, the flagged index (relative to
the running index) points at a certificate of the chain carrying exactly
the reported common name and `NotAfter`, the reported `NotAfter` is
strictly before the threshold, and every earlier certificate is not. -/
theorem expiryScan_some_spec (t : Int) :
    ∀ (chain : List GoCert) (i j : Nat) (cn : String) (na : Int),
      expiryScan t i chain = some (j, cn, na) →
      ∃ k, j = i + k ∧
        (∃ c, chain[k]? = some c ∧ c.SubjectCommonName = cn ∧ c.NotAfter = na ∧ na < t) ∧
        ∀ m, m < k → ∀ d, chain[m]? = some d → ¬ (d.NotAfter < t) := by
  intro chain
  induction chain with
  | nil => intro i j cn na h; simp [expiryScan] at h
  | cons c cs ih =>
    intro i j cn na h
    by_cases hc : c.NotAfter < t
    · simp [expiryScan, timeAfter, hc] at h
      obtain ⟨hj, hcn, hna⟩ := h
      refine ⟨0, by omega, ⟨c, by simp, hcn, hna, hna ▸ hc⟩, ?_⟩
      intro m hm
      omega
    · simp [expiryScan, timeAfter, hc] at h
      obtain ⟨k, hk, hsome, hpre⟩ := ih (i + 1) j cn na h
      refine ⟨k + 1, by omega, ?_, ?_⟩
      · obtain ⟨c0, hc0, h1, h2, h3⟩ := hsome
        exact ⟨c0, by simpa using hc0, h1, h2, h3⟩
      · intro m hm d hd
        cases m with
        | zero =>
          simp at hd
          exact hd ▸ hc
        | succ m0 =>
          exact hpre m0 (by omega) d (by simpa using hd)

/-- C3: the Expiry Evaluator flags exactly the first (lowest-index)
certificate whose `NotAfter` is strictly before the threshold, reporting
its chain index, subject common name and exact `NotAfter`; it returns
`none` exactly when no certificate is strictly before the threshold — so
a certificate expiring precisely at the threshold instant, or an empty
chain, succeeds. -/
theorem first_expiring_certificate_flagged (threshold : Int) (chain : List GoCert) :
    (expiryScan threshold 0 chain = none ↔ ∀ c ∈ chain, ¬ (c.NotAfter < threshold)) ∧
    (∀ j cn na, expiryScan threshold 0 chain = some (j, cn, na) →
      (∃ c, chain[j]? = some c ∧ c.SubjectCommonName = cn ∧ c.NotAfter = na ∧
          na < threshold) ∧
      ∀ m, m < j → ∀ d, chain[m]? = some d → ¬ (d.NotAfter < threshold)) := by
  refine ⟨expiryScan_none_iff threshold chain 0, ?_⟩
  intro j cn na h
  obtain ⟨k, hk, hsome, hpre⟩ := expiryScan_some_spec threshold chain 0 j cn na h
  have hjk : j = k := by omega
  subst hjk
  exact ⟨hsome, hpre⟩

/-- Witness for C3: a 100-threshold scan of a chain whose leaf expires at
99 flags index 0 with the leaf's data. -/
theorem first_expiring_certificate_flagged_witness :
    (∃ c, ([⟨(99 : Int), "leaf"⟩, ⟨500, "root"⟩] : List GoCert)[(0 : Nat)]? = some c ∧
        c.SubjectCommonName = "leaf" ∧ c.NotAfter = 99 ∧ (99 : Int) < 100) ∧
    (∀ m, m < 0 →
      ∀ d, ([⟨(99 : Int), "leaf"⟩, ⟨500, "root"⟩] : List GoCert)[m]? = some d →
        ¬ (d.NotAfter < 100)) :=
  (first_expiring_certificate_flagged 100 [⟨99, "leaf"⟩, ⟨500, "root"⟩]).2 0 "leaf" 99
    (by decide)

/-- C4: the Aggregator consumes the whole sequence of outcomes without
short-circuiting: the failure report contains one entry (hostname, error
detail) for every erroneous outcome — wherever it sits, also after
earlier failures — and `anyErrors` ends `true` exactly when at least one
outcome carries an error. -/
theorem aggregator_drains_and_reports_all (rs : List GoResult) :
    (consumeResults rs).1 = rs.filterMap (fun r => r.Err.map (fun e => (r.Hostname, e))) ∧
    ((consumeResults rs).2 = true ↔ ∃ r ∈ rs, r.Err ≠ none) := by
  rw [consumeResults_spec]
  refine ⟨rfl, ?_⟩
  simp [List.any_eq_true, Option.isSome_iff_ne_none]

/-- C9: the exit status separates the error classes: 0 exactly when every
outcome is error-free, 1 exactly when some check failed, and the
usage/configuration exit status taken before dispatch (missing hosts
file) is 64 — distinct from both. -/
theorem exit_status_separation (rs : List GoResult) :
    (exitAfterConsume rs = 0 ↔ ∀ r ∈ rs, r.Err = none) ∧
    (exitAfterConsume rs = 1 ↔ ∃ r ∈ rs, r.Err ≠ none) ∧
    usageErrorExit = 64 ∧ exitAfterConsume rs ≠ usageErrorExit := by
  have key : exitAfterConsume rs = if rs.any (fun r => r.Err.isSome) then 1 else 0 := by
    rw [exitAfterConsume, consumeResults_spec]
  by_cases h : rs.any (fun r => r.Err.isSome) = true
  · have h1 : exitAfterConsume rs = 1 := by rw [key, if_pos h]
    have hex : ∃ r ∈ rs, r.Err ≠ none := by
      simpa [List.any_eq_true, Option.isSome_iff_ne_none] using h
    obtain ⟨r0, hr0, he0⟩ := hex
    refine ⟨?_, ?_, rfl, ?_⟩
    · rw [h1]
      exact ⟨fun h10 => absurd h10 one_ne_zero, fun hall => absurd (hall r0 hr0) he0⟩
    · rw [h1]
      exact ⟨fun _ => ⟨r0, hr0, he0⟩, fun _ => rfl⟩
    · rw [h1]
      decide
  · have h0 : exitAfterConsume rs = 0 := by
      rw [key, if_neg h]
    have hall : ∀ r ∈ rs, r.Err = none := by
      intro r hr
      by_contra hne
      exact h (List.any_eq_true.mpr ⟨r, hr, Option.isSome_iff_ne_none.mpr hne⟩)
    refine ⟨?_, ?_, rfl, ?_⟩
    · rw [h0]
      exact ⟨fun _ => hall, fun _ => rfl⟩
    · rw [h0]
      constructor
      · intro h01
        exact absurd h01 (by decide)
      · intro hex
        obtain ⟨r0, hr0, he0⟩ := hex
        exact absurd (hall r0 hr0) he0
    · rw [h0]
      decide

/-- C10: `readHostsFile` returns exactly one entry per scanned line, in
order, each the `TrimSpace` of its line (a decomposition of the line into
all-whitespace margins around the entry); a line of only whitespace is
not skipped — it contributes the empty-string entry. -/
theorem readHostsFile_entry_per_line (lines : List String) :
    (readHostsFile lines).length = lines.length ∧
    (∀ i : Nat, (readHostsFile lines)[i]? = (lines[i]?).map goTrimSpace) ∧
    (∀ l : String, (∀ c ∈ l.data, isGoSpace c = true) → goTrimSpace l = "") ∧
    (∀ l : String, ∃ pre suf : List Char,
      l.data = pre ++ (goTrimSpace l).data ++ suf ∧
      (∀ c ∈ pre, isGoSpace c = true) ∧ (∀ c ∈ suf, isGoSpace c = true)) := by
  refine ⟨by simp [readHostsFile], fun i => by simp [readHostsFile], fun l hall => ?_,
    fun l => ?_⟩
  · have h1 : l.data.dropWhile isGoSpace = [] := List.dropWhile_eq_nil_iff.mpr hall
    simp [goTrimSpace, h1]
  · refine ⟨l.data.takeWhile isGoSpace,
      (l.data.dropWhile isGoSpace).rtakeWhile isGoSpace, ?_, ?_, ?_⟩
    · have hgoal : (goTrimSpace l).data =
          (l.data.dropWhile isGoSpace).rdropWhile isGoSpace := by
        simp [goTrimSpace, List.rdropWhile]
      rw [hgoal]
      have hdecomp : (l.data.dropWhile isGoSpace).rdropWhile isGoSpace ++
          (l.data.dropWhile isGoSpace).rtakeWhile isGoSpace =
          l.data.dropWhile isGoSpace := by
        simp only [List.rdropWhile, List.rtakeWhile, ← List.reverse_append,
          List.takeWhile_append_dropWhile, List.reverse_reverse]
      rw [List.append_assoc, hdecomp, List.takeWhile_append_dropWhile]
    · intro c hc
      exact List.mem_takeWhile_imp hc
    · intro c hc
      exact List.mem_rtakeWhile_imp hc

/-- Witness for C8 at a concrete refused dial. -/
theorem dial_error_captured_no_chain_evaluation_witness :
    (fun _ : String => (Except.error "connection refused" : Except String (List GoCert)))
        (connectHost "example.com") = Except.error "connection refused" ∧
    (workerStep (fun _ => Except.error "connection refused") 0 "example.com" =
        ⟨"example.com", some ("tls dial: " ++ "connection refused")⟩ ∧
      workerStep (fun _ => Except.error "connection refused") 0 "example.com" =
        workerStep (fun _ => Except.error "connection refused") 9999 "example.com") :=
  ⟨rfl, dial_error_captured_no_chain_evaluation _ 0 9999 "example.com" "connection refused" rfl⟩
